/-
Verification of the gravity-index analyzer (src/gravity_index.py).

The development shallowly embeds the analyzer: the link graph built by
scan_vault, the PageRank loop of calculate_pagerank, the 95th-percentile
normalizer get_95th_percentile, and the scorer calculate_gravity_index.
Floating point numbers are modelled by rationals; math.log and math.sqrt are
abstract parameters mlog and msqrt, since no claim depends on their values.
The traversal order of the Python set self.all_notes is an explicit list
parameter named order, since dict and set traversal order is what the code
relies on wherever it iterates the note set.
-/
import Mathlib

namespace GravityIndex

/-- Note identifiers are strings (markdown file stems or link targets). -/
abbrev Note := String

/-- The mutable graph state of GravityIndexAnalyzer: notes maps a note to its
file (here only membership matters), links and backlinks are the defaultdict
set fields, all_notes is the set of every identifier seen. -/
structure GraphStore where
  notes : Finset Note
  links : Note → Finset Note
  backlinks : Note → Finset Note
  all_notes : Finset Note

/-- One wiki link processed by scan_vault (lines 62-69): the target is added
to the forward links of the source, the source to the backlinks of the
target, and the target to all_notes.  The source itself was added to
all_notes when its file was scanned (line 44). -/
def addEdge (G : GraphStore) (source target : Note) : GraphStore :=
  { G with
    links := Function.update G.links source (insert target (G.links source))
    backlinks := Function.update G.backlinks target (insert source (G.backlinks target))
    all_notes := insert target G.all_notes }

/-- scan_vault: the file scan registers every markdown stem in notes and
all_notes, then every extracted (source, target) link pair is ingested by
the per-link block modelled by addEdge. -/
def scanVault (files : List Note) (edges : List (Note × Note)) : GraphStore :=
  edges.foldl (fun g e => addEdge g e.1 e.2)
    { notes := files.toFinset
      links := fun _ => ∅
      backlinks := fun _ => ∅
      all_notes := files.toFinset }

/-- Does the pattern lead the character list. -/
def startsWithChars : List Char → List Char → Bool
  | [], _ => true
  | _ :: _, [] => false
  | c :: cs, d :: ds => c = d && startsWithChars cs ds

/-- Does the pattern occur somewhere in the character list. -/
def containsChars (pat : List Char) : List Char → Bool
  | [] => startsWithChars pat []
  | d :: ds => startsWithChars pat (d :: ds) || containsChars pat ds

/-- The Python substring test pat in s. -/
def strContains (s pat : String) : Bool :=
  containsChars pat.data s.data

/-- The ordered priority list of _categorize_note. -/
def categorize (note : Note) : String :=
  if strContains note "⚗️" || strContains note "LYT" then "LYT/Courses"
  else if strContains note "MOC" then "MOCs"
  else if strContains note "Map" then "Maps"
  else if strContains note "Obsidian" then "Tools"
  else if ["Movie", "Book", "Series", "Drama", "Action", "Comedy"].any
      (fun w => strContains note w) then "Media"
  else if ["Workshop", "Home", "Pro", "Hub"].any
      (fun w => strContains note w) then "Workspaces"
  else if ["Project", "Template", "Record"].any
      (fun w => strContains note w) then "Productivity"
  else "Other"

/-- The default iteration count of calculate_pagerank. -/
def defaultIterations : ℕ := 50

/-- The default damping factor of calculate_pagerank. -/
def defaultDamping : ℚ := 85 / 100

/-- One synchronous round of the PageRank loop (lines 89-100): the new value
of a note is the teleport base plus, for every linking note that is a key of
the pagerank dict (equivalently a member of the notes list) and has positive
outdegree, the damped share of its previous value. -/
def pagerankStep (G : GraphStore) (order : List Note) (damping : ℚ)
    (prev : Note → ℚ) : Note → ℚ :=
  fun note =>
    (1 - damping) / order.length +
      ∑ m ∈ (G.backlinks note).filter
          (fun m => m ∈ order ∧ 0 < (G.links m).card),
        damping * prev m / (G.links m).card

/-- calculate_pagerank: early empty return, uniform initialization, a fixed
number of synchronous rounds, and one dict entry per note of the traversal
list. -/
def calculate_pagerank (G : GraphStore) (order : List Note)
    (iterations : ℕ) (damping : ℚ) : List (Note × ℚ) :=
  if order = [] then []
  else
    let final := (pagerankStep G order damping)^[iterations]
      (fun _ => 1 / (order.length : ℚ))
    order.map fun note => (note, final note)

/-- The PageRank recurrence exactly as section 4.2 of the specification
states it: uniform start, then rank at k+1 is the teleport base plus damping
times the sum over backlink sources of positive outdegree of their previous
rank divided by their outdegree. -/
def specRank (G : GraphStore) (damping : ℚ) : ℕ → Note → ℚ
  | 0, _ => 1 / (G.all_notes.card : ℚ)
  | k + 1, n =>
      (1 - damping) / (G.all_notes.card : ℚ) +
        damping * ∑ m ∈ (G.backlinks n).filter (fun m => 0 < (G.links m).card),
          specRank G damping k m / (G.links m).card

/-- Ascending insertion into a sorted list of rationals. -/
def insertAsc (x : ℚ) : List ℚ → List ℚ
  | [] => [x]
  | y :: ys => if x ≤ y then x :: y :: ys else y :: insertAsc x ys

/-- Ascending sort, modelling the Python sorted builtin on floats. -/
def sortAsc : List ℚ → List ℚ
  | [] => []
  | x :: xs => insertAsc x (sortAsc xs)

/-- get_95th_percentile (lines 170-175): keep the strictly positive values,
sort ascending, take the entry at the clamped index int(0.95 * n), and fall
back to 1 when nothing positive remains. -/
def get_95th_percentile (values : List ℚ) : ℚ :=
  let sorted_vals := sortAsc (values.filter fun v => decide (0 < v))
  if sorted_vals = [] then 1
  else
    sorted_vals.getD
      (min ((95 / 100 : ℚ) * (sorted_vals.length : ℚ)).floor.toNat
        (sorted_vals.length - 1)) 0

/-- One entry of the all_data list collected by calculate_gravity_index
(lines 114-163), with the file path replaced by the membership flag the code
actually stores. -/
structure NoteData where
  note : Note
  incoming : ℕ
  outgoing : ℕ
  bidirectional : ℕ
  incoming_log : ℚ
  outgoing_log : ℚ
  bidirectional_efficiency : ℚ
  scale_bonus : ℚ
  curation_bonus : ℚ
  conversation_bonus : ℚ
  quality_bonus : ℚ
  integration_index : ℚ
  pagerank_log : ℚ
  category : String
  inVault : Bool
  deriving DecidableEq

/-- One value of the gravity_scores dict (lines 208-227). -/
structure GravityScoreRecord where
  note : Note
  total : ℚ
  incoming : ℕ
  outgoing : ℕ
  bidirectional : ℕ
  bidirectional_efficiency : ℚ
  integration_index : ℚ
  category : String
  scale_bonus : ℚ
  curation_bonus : ℚ
  conversation_bonus : ℚ
  quality_bonus : ℚ
  authority_component : ℚ
  curation_component : ℚ
  conversation_component : ℚ
  quality_component : ℚ
  network_component : ℚ
  integration_component : ℚ
  inVault : Bool
  deriving DecidableEq

/-- The loop body of the all_data collection (lines 115-163) for one
connected note: raw counts, logarithmic scalings, efficiency ratio, the four
sweet-spot bonuses, the integration index and the scaled PageRank value. -/
def noteData (G : GraphStore) (prs : List (Note × ℚ)) (mlog msqrt : ℚ → ℚ)
    (note : Note) : NoteData :=
  let incoming := (G.backlinks note).card
  let outgoing := (G.links note).card
  let bidirectional := ((G.links note) ∩ (G.backlinks note)).card
  let bidirectional_efficiency :=
    if 0 < incoming then (bidirectional : ℚ) / ((max incoming 1 : ℕ) : ℚ) else 0
  { note := note
    incoming := incoming
    outgoing := outgoing
    bidirectional := bidirectional
    incoming_log := mlog ((incoming : ℚ) + 1)
    outgoing_log := mlog ((outgoing : ℚ) + 1)
    bidirectional_efficiency := bidirectional_efficiency
    scale_bonus := if 20 ≤ incoming ∧ incoming ≤ 100 then 3 / 2 else 1
    curation_bonus := if 15 ≤ outgoing then 13 / 10 else 1
    conversation_bonus := if 10 ≤ bidirectional then 6 / 5 else 1
    quality_bonus := if (1 / 4 : ℚ) < bidirectional_efficiency then 2 else 1 / 2
    integration_index := msqrt (((max bidirectional 1 : ℕ) : ℚ) *
      ((max outgoing 1 : ℕ) : ℚ) * max bidirectional_efficiency (1 / 100))
    pagerank_log := mlog (((prs.lookup note).getD 0) * 10000 + 1)
    category := categorize note
    inVault := decide (note ∈ G.notes) }

/-- The all_data list: the notes of the traversal that have at least one
connection, in traversal order, each expanded by noteData.  The PageRank run
uses the default iteration count and damping, as the call on line 111 does. -/
def allData (G : GraphStore) (order : List Note) (mlog msqrt : ℚ → ℚ) :
    List NoteData :=
  (order.filter fun n =>
      decide (0 < (G.backlinks n).card ∨ 0 < (G.links n).card)).map
    (noteData G (calculate_pagerank G order defaultIterations defaultDamping)
      mlog msqrt)

/-- Authority multiplier (line 186): target weight 25 over the 95th
percentile of the logarithmic incoming counts, 0 if that percentile is not
positive. -/
def authorityMultiplier (data : List NoteData) : ℚ :=
  let p := get_95th_percentile (data.map (fun d => d.incoming_log))
  if 0 < p then 25 / p else 0

/-- Curation multiplier (line 187). -/
def curationMultiplier (data : List NoteData) : ℚ :=
  let p := get_95th_percentile (data.map (fun d => d.outgoing_log))
  if 0 < p then 20 / p else 0

/-- Conversation multiplier (line 188). -/
def conversationMultiplier (data : List NoteData) : ℚ :=
  let p := get_95th_percentile (data.map (fun d => (d.bidirectional : ℚ)))
  if 0 < p then 20 / p else 0

/-- Quality multiplier (line 189). -/
def qualityMultiplier (data : List NoteData) : ℚ :=
  let p := get_95th_percentile (data.map (fun d => d.bidirectional_efficiency))
  if 0 < p then 15 / p else 0

/-- Network multiplier (line 190). -/
def networkMultiplier (data : List NoteData) : ℚ :=
  let p := get_95th_percentile (data.map (fun d => d.pagerank_log))
  if 0 < p then 10 / p else 0

/-- Integration multiplier (line 191). -/
def integrationMultiplier (data : List NoteData) : ℚ :=
  let p := get_95th_percentile (data.map (fun d => d.integration_index))
  if 0 < p then 10 / p else 0

/-- The final-score loop body (lines 194-227): the six weighted components
and their sum, stored next to the raw data. -/
def mkRecord (data : List NoteData) (d : NoteData) : GravityScoreRecord :=
  let authority_component := d.incoming_log * d.scale_bonus * authorityMultiplier data
  let curation_component := d.outgoing_log * d.curation_bonus * curationMultiplier data
  let conversation_component :=
    (d.bidirectional : ℚ) * d.conversation_bonus * conversationMultiplier data
  let quality_component :=
    d.bidirectional_efficiency * d.quality_bonus * qualityMultiplier data
  let network_component := d.pagerank_log * networkMultiplier data
  let integration_component := d.integration_index * integrationMultiplier data
  { note := d.note
    total := authority_component + curation_component + conversation_component +
      quality_component + network_component + integration_component
    incoming := d.incoming
    outgoing := d.outgoing
    bidirectional := d.bidirectional
    bidirectional_efficiency := d.bidirectional_efficiency
    integration_index := d.integration_index
    category := d.category
    scale_bonus := d.scale_bonus
    curation_bonus := d.curation_bonus
    conversation_bonus := d.conversation_bonus
    quality_bonus := d.quality_bonus
    authority_component := authority_component
    curation_component := curation_component
    conversation_component := conversation_component
    quality_component := quality_component
    network_component := network_component
    integration_component := integration_component
    inVault := d.inVault }

/-- The gravity_scores dict in insertion order, before the final sort. -/
def scored (G : GraphStore) (order : List Note) (mlog msqrt : ℚ → ℚ) :
    List GravityScoreRecord :=
  (allData G order mlog msqrt).map (mkRecord (allData G order mlog msqrt))

/-- Stable descending insertion by the total field: a record is placed
before the first record with a strictly smaller total, hence after every
earlier record whose total ties with it. -/
def insertRecDesc (x : GravityScoreRecord) :
    List GravityScoreRecord → List GravityScoreRecord
  | [] => [x]
  | y :: ys => if y.total ≤ x.total then x :: y :: ys else y :: insertRecDesc x ys

/-- Stable descending sort by total, modelling the Python builtin sorted
with a total key and reverse set, which keeps equal-key records in dict
insertion order. -/
def sortRecDesc : List GravityScoreRecord → List GravityScoreRecord
  | [] => []
  | x :: xs => insertRecDesc x (sortRecDesc xs)

/-- calculate_gravity_index (lines 106-229): empty result when no note has a
connection, otherwise the records sorted descending by total. -/
def calculate_gravity_index (G : GraphStore) (order : List Note)
    (mlog msqrt : ℚ → ℚ) : List GravityScoreRecord :=
  if allData G order mlog msqrt = [] then []
  else sortRecDesc (scored G order mlog msqrt)

/-! Helper lemmas about the two insertion sorts. -/

lemma insertAsc_perm (x : ℚ) (l : List ℚ) : List.Perm (insertAsc x l) (x :: l) := by
  induction l with
  | nil => exact List.Perm.refl _
  | cons y ys ih =>
    by_cases hc : x ≤ y
    · rw [insertAsc, if_pos hc]
    · rw [insertAsc, if_neg hc]
      exact (ih.cons y).trans (List.Perm.swap x y ys)

lemma sortAsc_perm (l : List ℚ) : List.Perm (sortAsc l) l := by
  induction l with
  | nil => exact List.Perm.refl _
  | cons y ys ih => exact (insertAsc_perm y (sortAsc ys)).trans (ih.cons y)

lemma insertAsc_pairwise (x : ℚ) (l : List ℚ) (h : l.Pairwise (· ≤ ·)) :
    (insertAsc x l).Pairwise (· ≤ ·) := by
  induction l with
  | nil => simp [insertAsc]
  | cons y ys ih =>
    rw [List.pairwise_cons] at h
    by_cases hc : x ≤ y
    · rw [insertAsc, if_pos hc]
      refine List.Pairwise.cons ?_ (List.Pairwise.cons h.1 h.2)
      intro z hz
      rcases List.mem_cons.mp hz with rfl | hz
      · exact hc
      · exact hc.trans (h.1 z hz)
    · rw [insertAsc, if_neg hc]
      refine List.Pairwise.cons ?_ (ih h.2)
      intro z hz
      rcases List.mem_cons.mp ((insertAsc_perm x ys).mem_iff.mp hz) with rfl | hz
      · exact le_of_lt (not_le.mp hc)
      · exact h.1 z hz

lemma sortAsc_pairwise (l : List ℚ) : (sortAsc l).Pairwise (· ≤ ·) := by
  induction l with
  | nil => simp [sortAsc]
  | cons y ys ih => exact insertAsc_pairwise y (sortAsc ys) ih

lemma insertRecDesc_perm (x : GravityScoreRecord) (l : List GravityScoreRecord) :
    List.Perm (insertRecDesc x l) (x :: l) := by
  induction l with
  | nil => exact List.Perm.refl _
  | cons y ys ih =>
    by_cases hc : y.total ≤ x.total
    · rw [insertRecDesc, if_pos hc]
    · rw [insertRecDesc, if_neg hc]
      exact (ih.cons y).trans (List.Perm.swap x y ys)

lemma sortRecDesc_perm (l : List GravityScoreRecord) : List.Perm (sortRecDesc l) l := by
  induction l with
  | nil => exact List.Perm.refl _
  | cons y ys ih => exact (insertRecDesc_perm y (sortRecDesc ys)).trans (ih.cons y)

lemma insertRecDesc_pairwise (x : GravityScoreRecord) (l : List GravityScoreRecord)
    (h : l.Pairwise (fun a b => b.total ≤ a.total)) :
    (insertRecDesc x l).Pairwise (fun a b => b.total ≤ a.total) := by
  induction l with
  | nil => simp [insertRecDesc]
  | cons y ys ih =>
    rw [List.pairwise_cons] at h
    by_cases hc : y.total ≤ x.total
    · rw [insertRecDesc, if_pos hc]
      refine List.Pairwise.cons ?_ (List.Pairwise.cons h.1 h.2)
      intro z hz
      rcases List.mem_cons.mp hz with rfl | hz
      · exact hc
      · exact (h.1 z hz).trans hc
    · rw [insertRecDesc, if_neg hc]
      refine List.Pairwise.cons ?_ (ih h.2)
      intro z hz
      rcases List.mem_cons.mp ((insertRecDesc_perm x ys).mem_iff.mp hz) with rfl | hz
      · exact le_of_lt (not_le.mp hc)
      · exact h.1 z hz

lemma sortRecDesc_pairwise (l : List GravityScoreRecord) :
    (sortRecDesc l).Pairwise (fun a b => b.total ≤ a.total) := by
  induction l with
  | nil => simp [sortRecDesc]
  | cons y ys ih => exact insertRecDesc_pairwise y (sortRecDesc ys) ih

lemma insertRecDesc_filter (t : ℚ) (x : GravityScoreRecord)
    (l : List GravityScoreRecord) :
    (insertRecDesc x l).filter (fun r => decide (r.total = t)) =
      (x :: l).filter (fun r => decide (r.total = t)) := by
  induction l with
  | nil => rfl
  | cons y ys ih =>
    by_cases hc : y.total ≤ x.total
    · rw [insertRecDesc, if_pos hc]
    · rw [insertRecDesc, if_neg hc]
      by_cases hx : x.total = t
      · have hy : ¬ y.total = t := by
          intro hy
          exact hc (le_of_eq (hy.trans hx.symm))
        simp [List.filter_cons, hx, hy, ih]
      · by_cases hy : y.total = t <;>
          simp [List.filter_cons, hx, hy, ih]

lemma sortRecDesc_filter (t : ℚ) (l : List GravityScoreRecord) :
    (sortRecDesc l).filter (fun r => decide (r.total = t)) =
      l.filter (fun r => decide (r.total = t)) := by
  induction l with
  | nil => rfl
  | cons y ys ih =>
    rw [sortRecDesc, insertRecDesc_filter, List.filter_cons, List.filter_cons, ih]

/-! Helper lemmas about the graph built by scan_vault. -/

lemma addEdge_symm {g : GraphStore}
    (h : ∀ a b, b ∈ g.links a ↔ a ∈ g.backlinks b) (s t : Note) :
    ∀ a b, b ∈ (addEdge g s t).links a ↔ a ∈ (addEdge g s t).backlinks b := by
  intro a b
  by_cases ha : a = s <;> by_cases hb : b = t <;>
    simp [addEdge, Function.update_apply, ha, hb, h]

lemma scanFold_symm (edges : List (Note × Note)) :
    ∀ (g : GraphStore), (∀ a b, b ∈ g.links a ↔ a ∈ g.backlinks b) →
      ∀ a b, b ∈ (edges.foldl (fun g e => addEdge g e.1 e.2) g).links a ↔
        a ∈ (edges.foldl (fun g e => addEdge g e.1 e.2) g).backlinks b := by
  induction edges with
  | nil => intro g h; exact h
  | cons e es ih =>
    intro g h
    exact ih (addEdge g e.1 e.2) (addEdge_symm h e.1 e.2)

lemma scanFold_allNotes_mono (edges : List (Note × Note)) :
    ∀ (g : GraphStore),
      g.all_notes ⊆ (edges.foldl (fun g e => addEdge g e.1 e.2) g).all_notes := by
  induction edges with
  | nil => intro g; exact Finset.Subset.refl _
  | cons e es ih =>
    intro g
    exact Finset.Subset.trans (Finset.subset_insert e.2 g.all_notes)
      (ih (addEdge g e.1 e.2))

lemma scanFold_target_mem (edges : List (Note × Note)) :
    ∀ (g : GraphStore) (e : Note × Note), e ∈ edges →
      e.2 ∈ (edges.foldl (fun g e => addEdge g e.1 e.2) g).all_notes := by
  induction edges with
  | nil => intro g e he; cases he
  | cons f fs ih =>
    intro g e he
    rcases List.mem_cons.mp he with rfl | he
    · exact scanFold_allNotes_mono fs (addEdge g e.1 e.2)
        (Finset.mem_insert_self e.2 g.all_notes)
    · exact ih (addEdge g f.1 f.2) e he

lemma scanFold_backlinks_sub (edges : List (Note × Note)) :
    ∀ (g : GraphStore) (n : Note),
      (edges.foldl (fun g e => addEdge g e.1 e.2) g).backlinks n ⊆
        g.backlinks n ∪ (edges.map Prod.fst).toFinset := by
  induction edges with
  | nil => intro g n; simp
  | cons e es ih =>
    intro g n
    refine Finset.Subset.trans (ih (addEdge g e.1 e.2) n) ?_
    intro x hx
    rcases Finset.mem_union.mp hx with hx | hx
    · by_cases hn : n = e.2
      · subst hn
        simp only [addEdge, Function.update_same] at hx
        rcases Finset.mem_insert.mp hx with rfl | hx
        · simp
        · exact Finset.mem_union.mpr (Or.inl hx)
      · simp only [addEdge, Function.update_apply, if_neg hn] at hx
        exact Finset.mem_union.mpr (Or.inl hx)
    · refine Finset.mem_union.mpr (Or.inr ?_)
      simp only [List.map_cons, List.toFinset_cons]
      exact Finset.mem_insert_of_mem hx

lemma scanVault_backlinks_closure (files : List Note) (edges : List (Note × Note))
    (hsrc : ∀ e ∈ edges, e.1 ∈ files) :
    ∀ n, (scanVault files edges).backlinks n ⊆ (scanVault files edges).all_notes := by
  intro n
  refine Finset.Subset.trans (scanFold_backlinks_sub edges _ n) ?_
  intro x hx
  rcases Finset.mem_union.mp hx with hx | hx
  · exact absurd hx (Finset.not_mem_empty x)
  · have hxf : x ∈ files := by
      rcases List.mem_map.mp (List.mem_toFinset.mp hx) with ⟨e, he, rfl⟩
      exact hsrc e he
    exact scanFold_allNotes_mono edges _ (List.mem_toFinset.mpr hxf)

lemma scanVault_symm (files : List Note) (edges : List (Note × Note)) :
    ∀ a b, b ∈ (scanVault files edges).links a ↔
      a ∈ (scanVault files edges).backlinks b :=
  scanFold_symm edges _ (fun a b => by simp)

/-- Claim C6: after any ingestion run the adjacency is symmetric, and both
endpoints of every ingested edge are members of all_notes (the target is
inserted by the per-link block, the source was registered by the file scan,
which is where every link source comes from). -/
theorem C6_adjacency_symmetry (files : List Note) (edges : List (Note × Note))
    (hsrc : ∀ e ∈ edges, e.1 ∈ files) :
    (∀ a b, b ∈ (scanVault files edges).links a ↔
        a ∈ (scanVault files edges).backlinks b) ∧
      ∀ e ∈ edges, e.1 ∈ (scanVault files edges).all_notes ∧
        e.2 ∈ (scanVault files edges).all_notes := by
  refine ⟨scanVault_symm files edges, fun e he => ⟨?_, ?_⟩⟩
  · exact scanFold_allNotes_mono edges _ (List.mem_toFinset.mpr (hsrc e he))
  · exact scanFold_target_mem edges _ e he

/-- Witness for C6 at the dangling-reference graph: one file A with a link
to the unmaterialized note X. -/
theorem C6_adjacency_symmetry_witness :
    ("X" ∈ (scanVault ["A"] [("A", "X")]).links "A" ↔
        "A" ∈ (scanVault ["A"] [("A", "X")]).backlinks "X") ∧
      "A" ∈ (scanVault ["A"] [("A", "X")]).all_notes ∧
        "X" ∈ (scanVault ["A"] [("A", "X")]).all_notes := by
  have h := C6_adjacency_symmetry ["A"] [("A", "X")] (by decide)
  exact ⟨h.1 "A" "X", h.2 ("A", "X") (by decide)⟩

/-- Claim C7: the per-link ingestion block is idempotent, with set insertion
deduplicating repeated links in links, backlinks and all_notes alike. -/
theorem C7_addEdge_idempotent (G : GraphStore) (source target : Note) :
    addEdge (addEdge G source target) source target = addEdge G source target := by
  cases G
  simp [addEdge, Function.update_same, Function.update_idem, Finset.insert_idem]

/-! Helper lemmas about the percentile normalizer. -/

lemma ratFloor_toNat_eq (x : ℚ) : x.floor.toNat = ⌊x⌋₊ := by
  have h : x.floor = ⌊x⌋ := by rw [Rat.floor_def', Rat.floor_def]
  rw [h, Int.floor_toNat]

lemma floor_95_percent (n : ℕ) :
    ((95 / 100 : ℚ) * (n : ℚ)).floor.toNat = 19 * n / 20 := by
  have h : (95 / 100 : ℚ) * (n : ℚ) = ((19 * n : ℕ) : ℚ) / ((20 : ℕ) : ℚ) := by
    push_cast
    ring
  rw [ratFloor_toNat_eq, h, Nat.floor_div_nat, Nat.floor_natCast]

/-- Claim C10, first half: the percentile anchor is always strictly
positive, because it is either the fallback 1 or one of the strictly
positive values kept by the filter. -/
lemma get_95th_percentile_pos (values : List ℚ) : 0 < get_95th_percentile values := by
  unfold get_95th_percentile
  by_cases h : sortAsc (values.filter fun v => decide (0 < v)) = []
  · simp [h]
  · rw [if_neg h]
    have hlen : 0 < (sortAsc (values.filter fun v => decide (0 < v))).length :=
      List.length_pos.mpr h
    have hidx :
        min ((95 / 100 : ℚ) *
            ((sortAsc (values.filter fun v => decide (0 < v))).length : ℚ)).floor.toNat
          ((sortAsc (values.filter fun v => decide (0 < v))).length - 1) <
          (sortAsc (values.filter fun v => decide (0 < v))).length :=
      lt_of_le_of_lt (min_le_right _ _) (Nat.sub_lt hlen Nat.one_pos)
    rw [List.getD_eq_getElem _ _ hidx]
    have hmem := List.getElem_mem hidx
    have hpos : ∀ x ∈ sortAsc (values.filter fun v => decide (0 < v)), 0 < x := by
      intro x hx
      have hx2 := (sortAsc_perm _).mem_iff.mp hx
      exact of_decide_eq_true (List.mem_filter.mp hx2).2
    exact hpos _ hmem

lemma get_95th_percentile_eq (values : List ℚ) :
    get_95th_percentile values =
      (let pos := sortAsc (values.filter fun v => decide (0 < v))
       if pos = [] then 1
       else pos.getD (min (19 * pos.length / 20) (pos.length - 1)) 0) := by
  unfold get_95th_percentile
  simp only [floor_95_percent]

/-- Claim C5: the percentile normalizer filters to the strictly positive
values, sorts them ascending (the sort is a sorted permutation), and indexes
the result at floor of 0.95 times the length, clamped to length minus one,
with fallback 1; on the ten values 1..10 it returns 10, and on the empty
input it returns 1. -/
theorem C5_percentile (values : List ℚ) :
    (get_95th_percentile values =
      (let pos := sortAsc (values.filter fun v => decide (0 < v))
       if pos = [] then 1
       else pos.getD (min (19 * pos.length / 20) (pos.length - 1)) 0)) ∧
      (sortAsc values).Pairwise (· ≤ ·) ∧
      List.Perm (sortAsc values) values ∧
      get_95th_percentile [1, 2, 3, 4, 5, 6, 7, 8, 9, 10] = 10 ∧
      get_95th_percentile [] = 1 := by
  exact ⟨get_95th_percentile_eq values, sortAsc_pairwise values, sortAsc_perm values,
    by rw [get_95th_percentile_eq]; decide, by decide⟩

/-- Claim C10: the percentile anchor is strictly positive for every input,
hence the division-by-zero guard branch of every multiplier is unreachable
and each multiplier is exactly its target weight divided by the anchor. -/
theorem C10_multipliers_never_zeroed :
    (∀ values : List ℚ, 0 < get_95th_percentile values) ∧
      ∀ data : List NoteData,
        authorityMultiplier data =
            25 / get_95th_percentile (data.map fun d => d.incoming_log) ∧
          curationMultiplier data =
            20 / get_95th_percentile (data.map fun d => d.outgoing_log) ∧
          conversationMultiplier data =
            20 / get_95th_percentile (data.map fun d => (d.bidirectional : ℚ)) ∧
          qualityMultiplier data =
            15 / get_95th_percentile (data.map fun d => d.bidirectional_efficiency) ∧
          networkMultiplier data =
            10 / get_95th_percentile (data.map fun d => d.pagerank_log) ∧
          integrationMultiplier data =
            10 / get_95th_percentile (data.map fun d => d.integration_index) := by
  refine ⟨get_95th_percentile_pos, fun data => ?_⟩
  refine ⟨?_, ?_, ?_, ?_, ?_, ?_⟩ <;>
    simp only [authorityMultiplier, curationMultiplier, conversationMultiplier,
      qualityMultiplier, networkMultiplier, integrationMultiplier,
      if_pos (get_95th_percentile_pos _)]

/-! Helper lemmas about the scorer output. -/

lemma scored_map_note (G : GraphStore) (order : List Note) (mlog msqrt : ℚ → ℚ) :
    (scored G order mlog msqrt).map (fun r => r.note) =
      order.filter
        (fun n => decide (0 < (G.backlinks n).card ∨ 0 < (G.links n).card)) := by
  unfold scored
  rw [List.map_map]
  rw [show (fun r : GravityScoreRecord => r.note) ∘
      mkRecord (allData G order mlog msqrt) = (fun d : NoteData => d.note) from rfl]
  unfold allData
  rw [List.map_map]
  rw [show (fun d : NoteData => d.note) ∘
      noteData G (calculate_pagerank G order defaultIterations defaultDamping)
        mlog msqrt = id from rfl]
  rw [List.map_id]

lemma mem_gravity_notes (G : GraphStore) (order : List Note) (mlog msqrt : ℚ → ℚ)
    (n : Note) :
    n ∈ (calculate_gravity_index G order mlog msqrt).map (fun r => r.note) ↔
      n ∈ order ∧ (0 < (G.backlinks n).card ∨ 0 < (G.links n).card) := by
  unfold calculate_gravity_index
  by_cases h : allData G order mlog msqrt = []
  · rw [if_pos h]
    simp only [List.map_nil, List.not_mem_nil, false_iff]
    rintro ⟨h1, h2⟩
    have hmem : n ∈ order.filter
        (fun n => decide (0 < (G.backlinks n).card ∨ 0 < (G.links n).card)) :=
      List.mem_filter.mpr ⟨h1, decide_eq_true h2⟩
    unfold allData at h
    rw [List.map_eq_nil_iff.mp h] at hmem
    cases hmem
  · rw [if_neg h]
    constructor
    · intro hm
      rcases List.mem_map.mp hm with ⟨r, hr, rfl⟩
      have hr2 : r ∈ scored G order mlog msqrt :=
        (sortRecDesc_perm _).mem_iff.mp hr
      have hr3 : r.note ∈ (scored G order mlog msqrt).map (fun r => r.note) :=
        List.mem_map_of_mem _ hr2
      rw [scored_map_note] at hr3
      exact ⟨(List.mem_filter.mp hr3).1,
        of_decide_eq_true (List.mem_filter.mp hr3).2⟩
    · rintro ⟨h1, h2⟩
      have hmem : n ∈ (scored G order mlog msqrt).map (fun r => r.note) := by
        rw [scored_map_note]
        exact List.mem_filter.mpr ⟨h1, decide_eq_true h2⟩
      rcases List.mem_map.mp hmem with ⟨r, hr, rfl⟩
      exact List.mem_map_of_mem _ ((sortRecDesc_perm _).mem_iff.mpr hr)

/-- Claim C1 (amended): the scorer output is sorted descending by total, and
for every total value the records carrying it appear exactly as they do in
the unsorted gravity_scores insertion order, i.e. ties keep the traversal
order of all_notes rather than being reordered by identifier. -/
theorem C1_amended_sorted_stable (G : GraphStore) (order : List Note)
    (mlog msqrt : ℚ → ℚ) :
    (calculate_gravity_index G order mlog msqrt).Pairwise
        (fun a b => b.total ≤ a.total) ∧
      ∀ t : ℚ,
        (calculate_gravity_index G order mlog msqrt).filter
            (fun r => decide (r.total = t)) =
          (scored G order mlog msqrt).filter (fun r => decide (r.total = t)) := by
  unfold calculate_gravity_index
  by_cases h : allData G order mlog msqrt = []
  · rw [if_pos h]
    refine ⟨List.Pairwise.nil, fun t => ?_⟩
    have hs : scored G order mlog msqrt = [] := by
      unfold scored
      rw [h]
      rfl
    rw [hs]
  · rw [if_neg h]
    exact ⟨sortRecDesc_pairwise _, fun t => sortRecDesc_filter t _⟩

/-- Claim C9: an empty note set makes calculate_pagerank return the empty
dict, and a graph in which every traversed note is isolated makes the scorer
return the empty result; both are ordinary defined values. -/
theorem C9_empty_results (G : GraphStore) (order : List Note)
    (mlog msqrt : ℚ → ℚ) (h2 : ∀ n, n ∈ order ↔ n ∈ G.all_notes) :
    (G.all_notes = ∅ →
        ∀ iterations damping,
          calculate_pagerank G order iterations damping = []) ∧
      ((∀ n ∈ order, (G.backlinks n).card = 0 ∧ (G.links n).card = 0) →
        calculate_gravity_index G order mlog msqrt = []) := by
  constructor
  · intro hempty iterations damping
    have horder : order = [] := by
      rw [List.eq_nil_iff_forall_not_mem]
      intro n hn
      have := (h2 n).mp hn
      rw [hempty] at this
      exact Finset.not_mem_empty n this
    unfold calculate_pagerank
    rw [if_pos horder]
  · intro hiso
    have hdata : allData G order mlog msqrt = [] := by
      unfold allData
      have hfil : order.filter
          (fun n => decide (0 < (G.backlinks n).card ∨ 0 < (G.links n).card)) = [] := by
        rw [List.filter_eq_nil_iff]
        intro n hn
        rcases hiso n hn with ⟨hb, hl⟩
        simp [hb, hl]
      rw [hfil]
      rfl
    unfold calculate_gravity_index
    rw [if_pos hdata]

/-- Witness for C9 at the empty vault. -/
theorem C9_empty_results_witness :
    calculate_pagerank (scanVault [] []) [] 7 (1 / 2) = [] ∧
      calculate_gravity_index (scanVault [] []) [] id id = [] := by
  have h := C9_empty_results (scanVault [] []) [] id id
    (by intro n; simp [scanVault])
  exact ⟨h.1 (by decide) 7 (1 / 2), h.2 (by intro n hn; cases hn)⟩

/-- Claim C8: a note gets a gravity record exactly when it is traversed and
has at least one incoming or outgoing link; in particular the dangling
reference X of the one-file vault A with a single link A to X is scored even
though it has no backing file, because its incoming count is positive. -/
theorem C8_qualification (G : GraphStore) (order : List Note)
    (mlog msqrt : ℚ → ℚ) (n : Note) :
    (n ∈ (calculate_gravity_index G order mlog msqrt).map (fun r => r.note) ↔
        n ∈ order ∧ (0 < (G.backlinks n).card ∨ 0 < (G.links n).card)) ∧
      "X" ∈ (calculate_gravity_index (scanVault ["A"] [("A", "X")]) ["A", "X"]
          mlog msqrt).map (fun r => r.note) := by
  refine ⟨mem_gravity_notes G order mlog msqrt n, ?_⟩
  rw [mem_gravity_notes]
  refine ⟨by decide, Or.inl ?_⟩
  rw [show (scanVault ["A"] [("A", "X")]).backlinks "X" = {"A"} from by decide]
  decide

/-! Helper lemmas for the PageRank refinement. -/

lemma order_length_eq_card {order : List Note} {A : Finset Note}
    (h1 : order.Nodup) (h2 : ∀ n, n ∈ order ↔ n ∈ A) :
    order.length = A.card := by
  have htf : order.toFinset = A := Finset.ext fun n => by
    rw [List.mem_toFinset]
    exact h2 n
  rw [← htf, List.toFinset_card_of_nodup h1]

lemma pagerank_iterate_eq_specRank (G : GraphStore) (order : List Note)
    (damping : ℚ) (h1 : order.Nodup) (h2 : ∀ n, n ∈ order ↔ n ∈ G.all_notes)
    (h3 : ∀ n, G.backlinks n ⊆ G.all_notes) (k : ℕ) (n : Note) :
    (pagerankStep G order damping)^[k] (fun _ => 1 / (order.length : ℚ)) n =
      specRank G damping k n := by
  induction k generalizing n with
  | zero =>
    simp only [Function.iterate_zero, id_eq, specRank,
      order_length_eq_card h1 h2]
  | succ k ih =>
    rw [Function.iterate_succ_apply']
    have hstep : ∀ (prev : Note → ℚ) (note : Note),
        pagerankStep G order damping prev note =
          (1 - damping) / (order.length : ℚ) +
            ∑ m ∈ (G.backlinks note).filter
                (fun m => m ∈ order ∧ 0 < (G.links m).card),
              damping * prev m / ((G.links m).card : ℚ) := fun _ _ => rfl
    rw [hstep]
    show _ = (1 - damping) / (G.all_notes.card : ℚ) +
        damping * ∑ m ∈ (G.backlinks n).filter (fun m => 0 < (G.links m).card),
          specRank G damping k m / ((G.links m).card : ℚ)
    have hfil : (G.backlinks n).filter
        (fun m => m ∈ order ∧ 0 < (G.links m).card) =
        (G.backlinks n).filter (fun m => 0 < (G.links m).card) := by
      refine Finset.filter_congr fun m hm => ?_
      have : m ∈ order := (h2 m).mpr (h3 n hm)
      simp [this]
    rw [hfil, Finset.mul_sum]
    congr 1
    · rw [order_length_eq_card h1 h2]
    · refine Finset.sum_congr rfl fun m _ => ?_
      rw [ih m, mul_div_assoc]

/-- Claim C2: on a graph whose note set is listed (without repetition) by
the traversal, and whose backlink entries stay inside the note set (true of
every scan_vault graph), the PageRank loop computes exactly the recurrence
of the specification: uniform initialization at one over the note count and
`iterations` synchronous rounds of the damped backlink sum, zero-outdegree
predecessors contributing nothing; the result keys are exactly the traversed
notes, and the shipped defaults are 50 iterations at damping 0.85. -/
theorem C2_pagerank_refines_spec (G : GraphStore) (order : List Note)
    (iterations : ℕ) (damping : ℚ) (h1 : order.Nodup)
    (h2 : ∀ n, n ∈ order ↔ n ∈ G.all_notes)
    (h3 : ∀ n, G.backlinks n ⊆ G.all_notes) (h4 : order ≠ []) :
    calculate_pagerank G order iterations damping =
        order.map (fun n => (n, specRank G damping iterations n)) ∧
      (calculate_pagerank G order iterations damping).map Prod.fst = order ∧
      (∀ n, specRank G damping 0 n = 1 / (G.all_notes.card : ℚ)) ∧
      defaultIterations = 50 ∧ defaultDamping = 85 / 100 := by
  have hmain : calculate_pagerank G order iterations damping =
      order.map (fun n => (n, specRank G damping iterations n)) := by
    unfold calculate_pagerank
    rw [if_neg h4]
    exact List.map_congr_left fun n _ => by
      rw [pagerank_iterate_eq_specRank G order damping h1 h2 h3]
  refine ⟨hmain, ?_, fun n => rfl, rfl, rfl⟩
  rw [hmain, List.map_map]
  rw [show (Prod.fst ∘ fun n => (n, specRank G damping iterations n)) = id from rfl]
  rw [List.map_id]

/-! Helper lemmas for the PageRank mass-leakage bound. -/

lemma pagerankStep_eq (G : GraphStore) (order : List Note) (damping : ℚ)
    (prev : Note → ℚ) (note : Note) :
    pagerankStep G order damping prev note =
      (1 - damping) / (order.length : ℚ) +
        ∑ m ∈ (G.backlinks note).filter
            (fun m => m ∈ order ∧ 0 < (G.links m).card),
          damping * prev m / ((G.links m).card : ℚ) := rfl

lemma pagerank_iterate_pos (G : GraphStore) (order : List Note) (damping : ℚ)
    (hd0 : 0 < damping) (hd1 : damping < 1) (horder : order ≠ []) :
    ∀ k n,
      0 < (pagerankStep G order damping)^[k] (fun _ => 1 / (order.length : ℚ)) n := by
  have hlen : 0 < ((order.length : ℕ) : ℚ) :=
    Nat.cast_pos.mpr (List.length_pos.mpr horder)
  intro k
  induction k with
  | zero =>
    intro n
    simpa using div_pos one_pos hlen
  | succ k ih =>
    intro n
    rw [Function.iterate_succ_apply', pagerankStep_eq]
    have hbase : 0 < (1 - damping) / (order.length : ℚ) :=
      div_pos (by linarith) hlen
    have hsum : 0 ≤ ∑ m ∈ (G.backlinks n).filter
        (fun m => m ∈ order ∧ 0 < (G.links m).card),
        damping * (pagerankStep G order damping)^[k]
          (fun _ => 1 / (order.length : ℚ)) m / ((G.links m).card : ℚ) := by
      refine Finset.sum_nonneg fun m _ => ?_
      exact div_nonneg (mul_nonneg hd0.le (ih m).le) (Nat.cast_nonneg _)
    exact add_pos_of_pos_of_nonneg hbase hsum

lemma pagerankStep_sum_le (G : GraphStore) (order : List Note) (damping : ℚ)
    (z : Note) (h1 : order.Nodup) (h2 : ∀ n, n ∈ order ↔ n ∈ G.all_notes)
    (hsym : ∀ a b, b ∈ G.links a ↔ a ∈ G.backlinks b)
    (hz : z ∈ G.all_notes) (hzdeg : (G.links z).card = 0) (hd0 : 0 < damping)
    (r : Note → ℚ) (hr : ∀ n, 0 ≤ r n) :
    ∑ n ∈ G.all_notes, pagerankStep G order damping r n ≤
      (1 - damping) + damping * (∑ n ∈ G.all_notes, r n - r z) := by
  have hcard0 : (0 : ℚ) < (G.all_notes.card : ℚ) :=
    Nat.cast_pos.mpr (Finset.card_pos.mpr ⟨z, hz⟩)
  have hlencard : order.length = G.all_notes.card := order_length_eq_card h1 h2
  simp only [pagerankStep_eq]
  rw [Finset.sum_add_distrib, Finset.sum_const, nsmul_eq_mul, hlencard]
  have hbase : (G.all_notes.card : ℚ) * ((1 - damping) / (G.all_notes.card : ℚ)) =
      1 - damping := by
    field_simp
  rw [hbase]
  refine add_le_add_left ?_ (1 - damping)
  have hdom : ∀ n, (G.backlinks n).filter
      (fun m => m ∈ order ∧ 0 < (G.links m).card) =
      G.all_notes.filter
        (fun m => m ∈ G.backlinks n ∧ (m ∈ order ∧ 0 < (G.links m).card)) := by
    intro n
    ext x
    simp only [Finset.mem_filter]
    constructor
    · rintro ⟨hxb, hxo, hxc⟩
      exact ⟨(h2 x).mp hxo, hxb, hxo, hxc⟩
    · rintro ⟨_, hxb, hxo, hxc⟩
      exact ⟨hxb, hxo, hxc⟩
  calc
    ∑ n ∈ G.all_notes,
        ∑ m ∈ (G.backlinks n).filter (fun m => m ∈ order ∧ 0 < (G.links m).card),
          damping * r m / ((G.links m).card : ℚ)
      = ∑ n ∈ G.all_notes, ∑ m ∈ G.all_notes,
          (if m ∈ G.backlinks n ∧ (m ∈ order ∧ 0 < (G.links m).card) then
            damping * r m / ((G.links m).card : ℚ) else 0) := by
        refine Finset.sum_congr rfl fun n _ => ?_
        rw [hdom n, Finset.sum_filter]
    _ = ∑ m ∈ G.all_notes, ∑ n ∈ G.all_notes,
          (if m ∈ G.backlinks n ∧ (m ∈ order ∧ 0 < (G.links m).card) then
            damping * r m / ((G.links m).card : ℚ) else 0) := Finset.sum_comm
    _ ≤ ∑ m ∈ G.all_notes,
          (if m ∈ order ∧ 0 < (G.links m).card then damping * r m else 0) := by
        refine Finset.sum_le_sum fun m _ => ?_
        by_cases hPm : m ∈ order ∧ 0 < (G.links m).card
        · rw [if_pos hPm]
          have hin : ∀ n,
              (if m ∈ G.backlinks n ∧ (m ∈ order ∧ 0 < (G.links m).card) then
                damping * r m / ((G.links m).card : ℚ) else 0) =
              (if n ∈ G.links m then
                damping * r m / ((G.links m).card : ℚ) else 0) := by
            intro n
            by_cases hb : m ∈ G.backlinks n
            · rw [if_pos ⟨hb, hPm⟩, if_pos ((hsym m n).mpr hb)]
            · rw [if_neg fun hcon => hb hcon.1,
                if_neg fun hcon => hb ((hsym m n).mp hcon)]
          rw [Finset.sum_congr rfl fun n _ => hin n, ← Finset.sum_filter,
            Finset.sum_const, nsmul_eq_mul]
          have hne : ((G.links m).card : ℚ) ≠ 0 :=
            (Nat.cast_pos.mpr hPm.2).ne'
          have hle : (((G.all_notes.filter (fun n => n ∈ G.links m)).card : ℕ) : ℚ) ≤
              ((G.links m).card : ℚ) :=
            Nat.cast_le.mpr (Finset.card_le_card
              fun x hx => (Finset.mem_filter.mp hx).2)
          have hfm : 0 ≤ damping * r m / ((G.links m).card : ℚ) :=
            div_nonneg (mul_nonneg hd0.le (hr m)) (Nat.cast_nonneg _)
          calc ((G.all_notes.filter (fun n => n ∈ G.links m)).card : ℚ) *
                (damping * r m / ((G.links m).card : ℚ))
              ≤ ((G.links m).card : ℚ) * (damping * r m / ((G.links m).card : ℚ)) :=
                mul_le_mul_of_nonneg_right hle hfm
            _ = damping * r m := by
                rw [mul_comm, div_mul_cancel₀ _ hne]
        · rw [if_neg hPm]
          rw [Finset.sum_congr rfl
            (fun n _ => if_neg fun hcon => hPm hcon.2), Finset.sum_const_zero]
    _ ≤ ∑ m ∈ G.all_notes.erase z, damping * r m := by
        rw [← Finset.sum_filter]
        refine Finset.sum_le_sum_of_subset_of_nonneg ?_ ?_
        · intro x hx
          rcases Finset.mem_filter.mp hx with ⟨hxA, _, hxc⟩
          refine Finset.mem_erase.mpr ⟨?_, hxA⟩
          intro hxz
          rw [hxz, hzdeg] at hxc
          exact lt_irrefl 0 hxc
        · intro x _ _
          exact mul_nonneg hd0.le (hr x)
    _ = damping * (∑ n ∈ G.all_notes, r n - r z) := by
        rw [← Finset.mul_sum]
        congr 1
        have hsplit := Finset.sum_erase_add G.all_notes r hz
        linarith

/-- Claim C3: in a symmetric listed graph holding a zero-outdegree note z
among at least two notes, the total PageRank mass is strictly below 1 after
every positive number of rounds, and the update of every note is unchanged
when the previous value of z is replaced arbitrarily, i.e. the rank of z is
never added to any note. -/
theorem C3_mass_leakage (G : GraphStore) (order : List Note) (z : Note)
    (damping : ℚ) (h1 : order.Nodup) (h2 : ∀ n, n ∈ order ↔ n ∈ G.all_notes)
    (hsym : ∀ a b, b ∈ G.links a ↔ a ∈ G.backlinks b)
    (hz : z ∈ G.all_notes) (hzdeg : (G.links z).card = 0)
    (hA2 : 2 ≤ G.all_notes.card) (hd0 : 0 < damping) (hd1 : damping < 1)
    (k : ℕ) (hk : 1 ≤ k) :
    ((calculate_pagerank G order k damping).map Prod.snd).sum < 1 ∧
      ∀ (prev : Note → ℚ) (q : ℚ) (n : Note),
        pagerankStep G order damping (Function.update prev z q) n =
          pagerankStep G order damping prev n := by
  have hzo : z ∈ order := (h2 z).mpr hz
  have horder : order ≠ [] := fun h => by
    rw [h] at hzo
    cases hzo
  have hpos := pagerank_iterate_pos G order damping hd0 hd1 horder
  have hS : ∀ j,
      (∑ n ∈ G.all_notes,
          (pagerankStep G order damping)^[j] (fun _ => 1 / (order.length : ℚ)) n) ≤ 1 ∧
        (1 ≤ j →
          (∑ n ∈ G.all_notes,
            (pagerankStep G order damping)^[j]
              (fun _ => 1 / (order.length : ℚ)) n) < 1) := by
    intro j
    induction j with
    | zero =>
      have hlencard := order_length_eq_card h1 h2
      have hcard0 : ((G.all_notes.card : ℕ) : ℚ) ≠ 0 :=
        Nat.cast_ne_zero.mpr (by omega)
      constructor
      · simp only [Function.iterate_zero, id_eq]
        rw [Finset.sum_const, nsmul_eq_mul, hlencard]
        rw [show (G.all_notes.card : ℚ) * (1 / (G.all_notes.card : ℚ)) = 1 by
          field_simp]
      · intro h
        exact absurd h (by norm_num)
    | succ j ih =>
      have hstep : (∑ n ∈ G.all_notes,
          (pagerankStep G order damping)^[j + 1]
            (fun _ => 1 / (order.length : ℚ)) n) =
          ∑ n ∈ G.all_notes, pagerankStep G order damping
            ((pagerankStep G order damping)^[j]
              (fun _ => 1 / (order.length : ℚ))) n := by
        refine Finset.sum_congr rfl fun n _ => ?_
        rw [Function.iterate_succ_apply']
      have hb := pagerankStep_sum_le G order damping z h1 h2 hsym hz hzdeg hd0
        ((pagerankStep G order damping)^[j] (fun _ => 1 / (order.length : ℚ)))
        (fun n => (hpos j n).le)
      have hzpos := hpos j z
      have hlt : (∑ n ∈ G.all_notes,
          (pagerankStep G order damping)^[j + 1]
            (fun _ => 1 / (order.length : ℚ)) n) < 1 := by
        rw [hstep]
        refine lt_of_le_of_lt hb ?_
        nlinarith [ih.1, mul_pos hd0 hzpos,
          mul_nonneg hd0.le (sub_nonneg.mpr ih.1)]
      exact ⟨hlt.le, fun _ => hlt⟩
  constructor
  · have hres : calculate_pagerank G order k damping =
        order.map (fun n => (n,
          (pagerankStep G order damping)^[k] (fun _ => 1 / (order.length : ℚ)) n)) := by
      unfold calculate_pagerank
      rw [if_neg horder]
    rw [hres, List.map_map]
    rw [show (Prod.snd ∘ fun n => (n,
        (pagerankStep G order damping)^[k] (fun _ => 1 / (order.length : ℚ)) n)) =
      fun n => (pagerankStep G order damping)^[k]
        (fun _ => 1 / (order.length : ℚ)) n from rfl]
    have hsum : (order.map (fun n =>
        (pagerankStep G order damping)^[k]
          (fun _ => 1 / (order.length : ℚ)) n)).sum =
        ∑ n ∈ G.all_notes,
          (pagerankStep G order damping)^[k] (fun _ => 1 / (order.length : ℚ)) n := by
      rw [← List.sum_toFinset _ h1]
      congr 1
      exact Finset.ext fun n => by
        rw [List.mem_toFinset]
        exact h2 n
    rw [hsum]
    exact (hS k).2 hk
  · intro prev q n
    rw [pagerankStep_eq, pagerankStep_eq]
    congr 1
    refine Finset.sum_congr rfl fun m hm => ?_
    have hmz : m ≠ z := by
      intro he
      have hc := (Finset.mem_filter.mp hm).2.2
      rw [he, hzdeg] at hc
      exact lt_irrefl 0 hc
    rw [Function.update_noteq hmz]

/-- Claim C4: every record of the scorer output carries exactly the four
step-function bonuses, the six components given by the stated formulas, and
a total equal to the sum of the six components. -/
theorem C4_bonus_and_component_formulas (G : GraphStore) (order : List Note)
    (mlog msqrt : ℚ → ℚ) (r : GravityScoreRecord)
    (hr : r ∈ calculate_gravity_index G order mlog msqrt) :
    r.scale_bonus = (if 20 ≤ r.incoming ∧ r.incoming ≤ 100 then (3 / 2 : ℚ) else 1) ∧
      r.curation_bonus = (if 15 ≤ r.outgoing then (13 / 10 : ℚ) else 1) ∧
      r.conversation_bonus = (if 10 ≤ r.bidirectional then (6 / 5 : ℚ) else 1) ∧
      r.quality_bonus =
        (if (1 / 4 : ℚ) < r.bidirectional_efficiency then 2 else 1 / 2) ∧
      r.authority_component = mlog ((r.incoming : ℚ) + 1) * r.scale_bonus *
        authorityMultiplier (allData G order mlog msqrt) ∧
      r.curation_component = mlog ((r.outgoing : ℚ) + 1) * r.curation_bonus *
        curationMultiplier (allData G order mlog msqrt) ∧
      r.conversation_component = (r.bidirectional : ℚ) * r.conversation_bonus *
        conversationMultiplier (allData G order mlog msqrt) ∧
      r.quality_component = r.bidirectional_efficiency * r.quality_bonus *
        qualityMultiplier (allData G order mlog msqrt) ∧
      r.network_component = mlog
          ((((calculate_pagerank G order defaultIterations
            defaultDamping).lookup r.note).getD 0) * 10000 + 1) *
        networkMultiplier (allData G order mlog msqrt) ∧
      r.integration_component = msqrt (((max r.bidirectional 1 : ℕ) : ℚ) *
          ((max r.outgoing 1 : ℕ) : ℚ) *
          max r.bidirectional_efficiency (1 / 100)) *
        integrationMultiplier (allData G order mlog msqrt) ∧
      r.total = r.authority_component + r.curation_component +
        r.conversation_component + r.quality_component + r.network_component +
        r.integration_component := by
  have hsc : r ∈ scored G order mlog msqrt := by
    unfold calculate_gravity_index at hr
    by_cases h : allData G order mlog msqrt = []
    · rw [if_pos h] at hr
      cases hr
    · rw [if_neg h] at hr
      exact (sortRecDesc_perm _).mem_iff.mp hr
  unfold scored at hsc
  rcases List.mem_map.mp hsc with ⟨d, hd, rfl⟩
  unfold allData at hd
  rcases List.mem_map.mp hd with ⟨n, hn, rfl⟩
  exact ⟨rfl, rfl, rfl, rfl, rfl, rfl, rfl, rfl, rfl, rfl, rfl⟩

/-! Concrete evaluation of the mutual-pair vault: files A and B, each
linking only to the other, traversed with B first.  The log and sqrt
parameters are instantiated with the identity. -/

/-- The mutual-pair vault. -/
def mutualPair : GraphStore := scanVault ["A", "B"] [("A", "B"), ("B", "A")]

lemma mutualPair_iter (k : ℕ) :
    ((pagerankStep mutualPair ["B", "A"] defaultDamping)^[k]
        (fun _ => 1 / (((["B", "A"] : List Note)).length : ℚ))) "A" = 1 / 2 ∧
      ((pagerankStep mutualPair ["B", "A"] defaultDamping)^[k]
        (fun _ => 1 / (((["B", "A"] : List Note)).length : ℚ))) "B" = 1 / 2 := by
  induction k with
  | zero =>
    constructor <;>
      · simp only [Function.iterate_zero, id_eq]
        norm_num
  | succ k ih =>
    constructor
    · rw [Function.iterate_succ_apply', pagerankStep_eq]
      rw [show (mutualPair.backlinks "A").filter
          (fun m => m ∈ (["B", "A"] : List Note) ∧ 0 < (mutualPair.links m).card) =
          {"B"} from by decide]
      rw [Finset.sum_singleton, ih.2]
      rw [show (mutualPair.links "B").card = 1 from by decide]
      norm_num [defaultDamping]
    · rw [Function.iterate_succ_apply', pagerankStep_eq]
      rw [show (mutualPair.backlinks "B").filter
          (fun m => m ∈ (["B", "A"] : List Note) ∧ 0 < (mutualPair.links m).card) =
          {"A"} from by decide]
      rw [Finset.sum_singleton, ih.1]
      rw [show (mutualPair.links "A").card = 1 from by decide]
      norm_num [defaultDamping]

lemma mutualPair_pagerank :
    calculate_pagerank mutualPair ["B", "A"] defaultIterations defaultDamping =
      [("B", 1 / 2), ("A", 1 / 2)] := by
  unfold calculate_pagerank
  rw [if_neg (by decide : ¬(["B", "A"] : List Note) = [])]
  simp only [List.map_cons, List.map_nil]
  rw [(mutualPair_iter defaultIterations).1, (mutualPair_iter defaultIterations).2]

/-- The all_data entry shared (up to the name) by both notes of the mutual
pair under identity log and sqrt. -/
def mutualData (name : Note) : NoteData :=
  { note := name
    incoming := 1
    outgoing := 1
    bidirectional := 1
    incoming_log := 2
    outgoing_log := 2
    bidirectional_efficiency := 1
    scale_bonus := 1
    curation_bonus := 1
    conversation_bonus := 1
    quality_bonus := 2
    integration_index := 1
    pagerank_log := 5001
    category := "Other"
    inVault := true }

lemma mutualPair_noteData (name : Note) (hname : name = "A" ∨ name = "B") :
    noteData mutualPair [("B", 1 / 2), ("A", 1 / 2)] id id name =
      mutualData name := by
  have hbl : (mutualPair.backlinks name).card = 1 := by
    rcases hname with rfl | rfl <;> decide
  have hli : (mutualPair.links name).card = 1 := by
    rcases hname with rfl | rfl <;> decide
  have hbi : ((mutualPair.links name) ∩ (mutualPair.backlinks name)).card = 1 := by
    rcases hname with rfl | rfl <;> decide
  have hcat : categorize name = "Other" := by
    rcases hname with rfl | rfl <;> decide
  have hvault : decide (name ∈ mutualPair.notes) = true := by
    rcases hname with rfl | rfl <;> decide
  have hlook : (([("B", (1 : ℚ) / 2), ("A", 1 / 2)]).lookup name).getD 0 = 1 / 2 := by
    rcases hname with rfl | rfl <;> rfl
  unfold noteData mutualData
  simp only [hbl, hli, hbi, hcat, hvault, hlook, NoteData.mk.injEq]
  norm_num

lemma mutualPair_allData :
    allData mutualPair ["B", "A"] id id = [mutualData "B", mutualData "A"] := by
  unfold allData
  rw [mutualPair_pagerank]
  rw [show (["B", "A"] : List Note).filter
      (fun n => decide (0 < (mutualPair.backlinks n).card ∨
        0 < (mutualPair.links n).card)) = ["B", "A"] from by decide]
  simp only [List.map_cons, List.map_nil]
  rw [mutualPair_noteData "B" (Or.inr rfl), mutualPair_noteData "A" (Or.inl rfl)]

lemma mutualPair_multipliers :
    authorityMultiplier [mutualData "B", mutualData "A"] = 25 / 2 ∧
      curationMultiplier [mutualData "B", mutualData "A"] = 10 ∧
      conversationMultiplier [mutualData "B", mutualData "A"] = 20 ∧
      qualityMultiplier [mutualData "B", mutualData "A"] = 15 ∧
      networkMultiplier [mutualData "B", mutualData "A"] = 10 / 5001 ∧
      integrationMultiplier [mutualData "B", mutualData "A"] = 10 := by
  refine ⟨?_, ?_, ?_, ?_, ?_, ?_⟩
  · unfold authorityMultiplier
    rw [show List.map (fun d => d.incoming_log) [mutualData "B", mutualData "A"] =
      [2, 2] from rfl]
    rw [show get_95th_percentile [2, 2] = 2 from by
      rw [get_95th_percentile_eq]; decide]
    norm_num
  · unfold curationMultiplier
    rw [show List.map (fun d => d.outgoing_log) [mutualData "B", mutualData "A"] =
      [2, 2] from rfl]
    rw [show get_95th_percentile [2, 2] = 2 from by
      rw [get_95th_percentile_eq]; decide]
    norm_num
  · unfold conversationMultiplier
    rw [show List.map (fun d => (d.bidirectional : ℚ)) [mutualData "B", mutualData "A"] =
      [1, 1] from by norm_num [mutualData]]
    rw [show get_95th_percentile [1, 1] = 1 from by
      rw [get_95th_percentile_eq]; decide]
    norm_num
  · unfold qualityMultiplier
    rw [show List.map (fun d => d.bidirectional_efficiency)
      [mutualData "B", mutualData "A"] = [1, 1] from rfl]
    rw [show get_95th_percentile [1, 1] = 1 from by
      rw [get_95th_percentile_eq]; decide]
    norm_num
  · unfold networkMultiplier
    rw [show List.map (fun d => d.pagerank_log) [mutualData "B", mutualData "A"] =
      [5001, 5001] from rfl]
    rw [show get_95th_percentile [5001, 5001] = 5001 from by
      rw [get_95th_percentile_eq]; decide]
    norm_num
  · unfold integrationMultiplier
    rw [show List.map (fun d => d.integration_index) [mutualData "B", mutualData "A"] =
      [1, 1] from rfl]
    rw [show get_95th_percentile [1, 1] = 1 from by
      rw [get_95th_percentile_eq]; decide]
    norm_num

/-- The gravity record shared (up to the name) by both notes of the mutual
pair under identity log and sqrt. -/
def mutualRecord (name : Note) : GravityScoreRecord :=
  { note := name
    total := 115
    incoming := 1
    outgoing := 1
    bidirectional := 1
    bidirectional_efficiency := 1
    integration_index := 1
    category := "Other"
    scale_bonus := 1
    curation_bonus := 1
    conversation_bonus := 1
    quality_bonus := 2
    authority_component := 25
    curation_component := 20
    conversation_component := 20
    quality_component := 30
    network_component := 10
    integration_component := 10
    inVault := true }

lemma mutualPair_mkRecord (name : Note) :
    mkRecord [mutualData "B", mutualData "A"] (mutualData name) =
      mutualRecord name := by
  have hm := mutualPair_multipliers
  unfold mkRecord
  rw [hm.1, hm.2.1, hm.2.2.1, hm.2.2.2.1, hm.2.2.2.2.1, hm.2.2.2.2.2]
  unfold mutualData mutualRecord
  simp only [GravityScoreRecord.mk.injEq]
  norm_num

lemma mutualPair_gravity :
    calculate_gravity_index mutualPair ["B", "A"] id id =
      [mutualRecord "B", mutualRecord "A"] := by
  have hne : allData mutualPair ["B", "A"] id id ≠ [] := by
    rw [mutualPair_allData]
    exact List.cons_ne_nil _ _
  unfold calculate_gravity_index
  rw [if_neg hne]
  unfold scored
  rw [mutualPair_allData]
  simp only [List.map_cons, List.map_nil]
  rw [mutualPair_mkRecord "B", mutualPair_mkRecord "A"]
  simp only [sortRecDesc, insertRecDesc]
  rw [if_pos (show (mutualRecord "A").total ≤ (mutualRecord "B").total from
    by decide)]

/-- Claim C1 is false on the code: with set-traversal order B before A, the
two equal-total records of the mutual pair come out B first, so ties are not
broken by ascending identifier. -/
theorem C1_tiebreak_counterexample :
    ((calculate_gravity_index mutualPair ["B", "A"] id id).map
        (fun r => r.note) = ["B", "A"]) ∧
      ((calculate_gravity_index mutualPair ["B", "A"] id id).map
        (fun r => r.total) = [115, 115]) := by
  rw [mutualPair_gravity]
  exact ⟨rfl, rfl⟩

lemma mutualPair_listing :
    ∀ n : Note, n ∈ (["B", "A"] : List Note) ↔ n ∈ mutualPair.all_notes := by
  intro n
  rw [show mutualPair.all_notes = {"A", "B"} from by decide]
  simp [or_comm]

/-- Witness for C2 on the mutual pair at one iteration and damping 1/2. -/
theorem C2_pagerank_refines_spec_witness :
    calculate_pagerank mutualPair ["B", "A"] 1 (1 / 2) =
      (["B", "A"] : List Note).map
        (fun n => (n, specRank mutualPair (1 / 2) 1 n)) :=
  (C2_pagerank_refines_spec mutualPair ["B", "A"] 1 (1 / 2) (by decide)
    mutualPair_listing
    (scanVault_backlinks_closure ["A", "B"] [("A", "B"), ("B", "A")] (by decide))
    (by decide)).1

/-- The vault of files A and B where only A links, to B, so that B has
outdegree zero. -/
def danglingPair : GraphStore := scanVault ["A", "B"] [("A", "B")]

lemma danglingPair_listing :
    ∀ n : Note, n ∈ (["A", "B"] : List Note) ↔ n ∈ danglingPair.all_notes := by
  intro n
  rw [show danglingPair.all_notes = {"A", "B"} from by decide]
  simp

/-- Witness for C3 on the two-note vault whose note B has outdegree zero,
after one iteration at the default damping value. -/
theorem C3_mass_leakage_witness :
    ((calculate_pagerank danglingPair ["A", "B"] 1 (17 / 20)).map Prod.snd).sum
      < 1 :=
  (C3_mass_leakage danglingPair ["A", "B"] "B" (17 / 20) (by decide)
    danglingPair_listing (scanVault_symm ["A", "B"] [("A", "B")]) (by decide)
    (by decide) (by decide) (by norm_num) (by norm_num) 1 le_rfl).1

/-- Witness for C4 at the record of note B in the mutual pair. -/
theorem C4_bonus_and_component_formulas_witness :
    (mutualRecord "B").scale_bonus =
        (if 20 ≤ (mutualRecord "B").incoming ∧ (mutualRecord "B").incoming ≤ 100
          then (3 / 2 : ℚ) else 1) ∧
      (mutualRecord "B").curation_bonus =
        (if 15 ≤ (mutualRecord "B").outgoing then (13 / 10 : ℚ) else 1) ∧
      (mutualRecord "B").conversation_bonus =
        (if 10 ≤ (mutualRecord "B").bidirectional then (6 / 5 : ℚ) else 1) ∧
      (mutualRecord "B").quality_bonus =
        (if (1 / 4 : ℚ) < (mutualRecord "B").bidirectional_efficiency then 2
          else 1 / 2) ∧
      (mutualRecord "B").authority_component =
        id (((mutualRecord "B").incoming : ℚ) + 1) * (mutualRecord "B").scale_bonus *
          authorityMultiplier (allData mutualPair ["B", "A"] id id) ∧
      (mutualRecord "B").curation_component =
        id (((mutualRecord "B").outgoing : ℚ) + 1) * (mutualRecord "B").curation_bonus *
          curationMultiplier (allData mutualPair ["B", "A"] id id) ∧
      (mutualRecord "B").conversation_component =
        ((mutualRecord "B").bidirectional : ℚ) * (mutualRecord "B").conversation_bonus *
          conversationMultiplier (allData mutualPair ["B", "A"] id id) ∧
      (mutualRecord "B").quality_component =
        (mutualRecord "B").bidirectional_efficiency * (mutualRecord "B").quality_bonus *
          qualityMultiplier (allData mutualPair ["B", "A"] id id) ∧
      (mutualRecord "B").network_component =
        id ((((calculate_pagerank mutualPair ["B", "A"] defaultIterations
            defaultDamping).lookup (mutualRecord "B").note).getD 0) * 10000 + 1) *
          networkMultiplier (allData mutualPair ["B", "A"] id id) ∧
      (mutualRecord "B").integration_component =
        id (((max (mutualRecord "B").bidirectional 1 : ℕ) : ℚ) *
            ((max (mutualRecord "B").outgoing 1 : ℕ) : ℚ) *
            max (mutualRecord "B").bidirectional_efficiency (1 / 100)) *
          integrationMultiplier (allData mutualPair ["B", "A"] id id) ∧
      (mutualRecord "B").total = (mutualRecord "B").authority_component +
        (mutualRecord "B").curation_component +
        (mutualRecord "B").conversation_component +
        (mutualRecord "B").quality_component +
        (mutualRecord "B").network_component +
        (mutualRecord "B").integration_component :=
  C4_bonus_and_component_formulas mutualPair ["B", "A"] id id (mutualRecord "B")
    (by rw [mutualPair_gravity]; exact List.mem_cons_self _ _)

end GravityIndex
